import Mathlib

/-!
Verification development for the `jira-tools` repository.

The analytical core of the repository is embedded shallowly:
* `jirabug/analysis/feedback.py` — similarity index and feedback store;
* `jirabug/analysis/feature_analyzer.py` — quality scorer and grading;
* `jirabug/core/fastgpt_client.py` — oracle-response parsing.

Python strings that undergo structural manipulation (tokenizing, stripping,
splitting, replacing) are embedded as `List Char`; strings used only as
lookup keys (status / severity labels) stay as `String`.  Floating-point
scores are embedded as `ℚ` (the score arithmetic is exact decimal
arithmetic, faithfully represented by rationals).  Stateful or fallible
code (the durable CSV append in `save_feedback`) is embedded as explicit
state passing with an explicit success flag for the fallible external
write.
-/

set_option maxHeartbeats 1000000

namespace Jirabug

/-! ### Text primitives: `List Char` embedding of the Python `str` operations -/

/-- Accumulator-based worker for `splitWs`; `acc` holds the current token
in reverse order.  Mirrors Python `str.split()` (split on whitespace runs,
no empty tokens). -/
def splitWsAux : List Char → List Char → List (List Char)
  | [], acc => if acc = [] then [] else [acc.reverse]
  | c :: cs, acc =>
    if c.isWhitespace then
      if acc = [] then splitWsAux cs [] else acc.reverse :: splitWsAux cs []
    else splitWsAux cs (c :: acc)

/-- Python `str.split()` with no separator: whitespace runs, empties dropped. -/
def splitWs (l : List Char) : List (List Char) := splitWsAux l []

/-- Python `s.split("\n")`: split on every newline, keeping empty pieces. -/
def splitOnNL : List Char → List (List Char)
  | [] => [[]]
  | c :: cs =>
    if c = '\n' then [] :: splitOnNL cs
    else
      match splitOnNL cs with
      | [] => [[c]]
      | t :: ts => (c :: t) :: ts

/-- Drop leading whitespace (left half of Python `str.strip()`). -/
def ldropWs (l : List Char) : List Char := l.dropWhile Char.isWhitespace

/-- Drop trailing whitespace (right half of Python `str.strip()`). -/
def rdropWs (l : List Char) : List Char := (l.reverse.dropWhile Char.isWhitespace).reverse

/-- Python `str.strip()`: drop whitespace at both ends. -/
def strip (l : List Char) : List Char := rdropWs (ldropWs l)

/-- Whether `pat` occurs as a contiguous run inside `l`
(Python `pat in l` for substrings). -/
def containsSub (l pat : List Char) : Bool :=
  match l with
  | [] => pat.isEmpty
  | _ :: cs => pat.isPrefixOf l || containsSub cs pat

/-- Python `l.replace(pat, "")`: remove every (left-to-right, non-overlapping)
occurrence of `pat` from `l`. -/
def replaceAllFuel : Nat → List Char → List Char → List Char
  | 0, l, _ => l
  | _ + 1, [], _ => []
  | fuel + 1, c :: cs, pat =>
    if pat.isPrefixOf (c :: cs) then replaceAllFuel fuel ((c :: cs).drop pat.length) pat
    else c :: replaceAllFuel fuel cs pat

/-- Python `l.replace(pat, "")`: remove every (left-to-right, non-overlapping)
occurrence of `pat` from `l`.  Implemented with a fuel parameter (one unit of
fuel per consumed character) so that the function is structurally recursive;
`l.length` fuel always suffices because every step consumes at least one
character of a non-empty pattern. -/
def replaceAll (l pat : List Char) : List Char :=
  if pat = [] then l else replaceAllFuel l.length l pat

/-! ### Similarity Index (`feedback.py`, `_calculate_similarity`) -/

/-- Token set of a text: case-fold, split on whitespace, collapse duplicates.
Embeds `set(text.lower().split())`. -/
def tokens (t : List Char) : Finset (List Char) :=
  (splitWs (t.map Char.toLower)).toFinset

/-- Embedding of `FeedbackManager._calculate_similarity`: Jaccard similarity
of the two token sets; 0 when either token set is empty. -/
def _calculate_similarity (text1 text2 : List Char) : ℚ :=
  let words1 := tokens text1
  let words2 := tokens text2
  if words1 = ∅ ∨ words2 = ∅ then 0
  else
    if 0 < (words1 ∪ words2).card then
      ((words1 ∩ words2).card : ℚ) / ((words1 ∪ words2).card : ℚ)
    else 0

/-! ### Feedback Store (`feedback.py`, `FeedbackManager`) -/

/-- One row of the feedback log (`save_feedback`'s `feedback_entry` dict /
one CSV record). -/
structure FeedbackEntry where
  bug_id : List Char
  bug_title : List Char
  predicted_feature : List Char
  correct_feature : List Char
  reason : List Char
  timestamp : List Char
deriving DecidableEq

/-- `self.similarity_threshold = 0.7`. -/
def similarity_threshold : ℚ := 7 / 10

/-- `self.max_feedback_examples = 5`. -/
def max_feedback_examples : ℕ := 5

/-- Stable descending insertion: place `p` after every already-placed pair
whose similarity is at least `p`'s.  Used to realize Python's stable
`list.sort(key=..., reverse=True)`. -/
def insertDesc (p : FeedbackEntry × ℚ) : List (FeedbackEntry × ℚ) → List (FeedbackEntry × ℚ)
  | [] => [p]
  | q :: qs => if p.2 ≤ q.2 then q :: insertDesc p qs else p :: q :: qs

/-- Stable sort by descending similarity (Python `list.sort` is stable;
stable insertion sort produces the identical list). -/
def sortDescBySim (l : List (FeedbackEntry × ℚ)) : List (FeedbackEntry × ℚ) :=
  l.foldl (fun acc p => insertDesc p acc) []

/-- The `relevant_feedback` list built by the loop in `get_relevant_feedback`:
each stored entry paired with its similarity to the queried title, kept when
the similarity reaches the threshold.  Order is the store's insertion order. -/
def relevantList (store : List FeedbackEntry) (bug_title : List Char) :
    List (FeedbackEntry × ℚ) :=
  (store.map fun e => (e, _calculate_similarity bug_title e.bug_title)).filter
    fun p => similarity_threshold ≤ p.2

/-- Embedding of `FeedbackManager.get_relevant_feedback` (the unused
`bug_description` parameter is omitted): filter by threshold, sort descending
by similarity (stably), truncate to `max_feedback_examples`. -/
def get_relevant_feedback (store : List FeedbackEntry) (bug_title : List Char) :
    List (FeedbackEntry × ℚ) :=
  if store.isEmpty then []
  else (sortDescBySim (relevantList store bug_title)).take max_feedback_examples

/-- State of a `FeedbackManager`: the in-memory list and the durable CSV log
(abstracted to the list of entries it holds). -/
structure FeedbackStore where
  feedback_data : List FeedbackEntry
  fileLog : List FeedbackEntry

/-- Embedding of `FeedbackManager.save_feedback`.  The in-memory append
happens first; the durable CSV append is an external, fallible write whose
outcome is the explicit `writeOk` flag (`false` models the caught
exception).  Returns the new state and the boolean reported to the caller. -/
def save_feedback (st : FeedbackStore) (e : FeedbackEntry) (writeOk : Bool) :
    FeedbackStore × Bool :=
  let st1 : FeedbackStore := { st with feedback_data := st.feedback_data ++ [e] }
  if writeOk then ({ st1 with fileLog := st1.fileLog ++ [e] }, true)
  else (st1, false)

/-! ### Quality Scorer (`feature_analyzer.py`, `FeatureQualityAnalyzer`) -/

/-- A linked bug as the analyzer reads it: every field is fetched with
`bug.get(...)`, so every field is optional. -/
structure Bug where
  status : Option String
  severity : Option String
  priority : Option String
  created : Option String
  resolutiondate : Option String
deriving DecidableEq

/-- `self.severity_weights` (dict lookup: `some` when the key is present). -/
def severity_weights (s : String) : Option ℚ :=
  if s = "Blocker" then some 5
  else if s = "Critical" then some 4
  else if s = "Major" then some 3
  else if s = "Normal" then some 2
  else if s = "Minor" then some 1
  else if s = "Trivial" then some (1 / 2)
  else none

/-- `self.status_categories` (dict lookup). -/
def status_categories (s : String) : Option String :=
  if s = "Open" then some "Open"
  else if s = "In Progress" then some "Open"
  else if s = "Reopened" then some "Open"
  else if s = "To Do" then some "Open"
  else if s = "Resolved" then some "Resolved"
  else if s = "Closed" then some "Resolved"
  else if s = "Done" then some "Resolved"
  else if s = "Backlog" then some "Other"
  else none

/-- `self.status_categories.get(status, "Other")`. -/
def statusCategory (s : String) : String := (status_categories s).getD "Other"

/-- `self.severity_weights.get(severity, 1)`. -/
def severityWeightD (s : String) : ℚ := (severity_weights s).getD 1

/-- Number of linked bugs whose status classifies as `Resolved`
(`status_counts["Resolved"]` in `analyze_feature_quality`; the status field
defaults to `"Unknown"` there). -/
def resolvedCount (bugs : List Bug) : ℕ :=
  bugs.countP fun b => statusCategory (b.status.getD "Unknown") == "Resolved"

/-- `resolution_rate = (resolved_bugs / total_bugs * 100) if total_bugs > 0 else 100`
(line 109 of `feature_analyzer.py`). -/
def resolution_rate (bugs : List Bug) : ℚ :=
  if 0 < bugs.length then (resolvedCount bugs : ℚ) / (bugs.length : ℚ) * 100 else 100

/-- The per-bug deduction of the loop in `_calculate_quality_score`:
`severity_weights.get(bug.get("severity", "Normal"), 1) * 2` when the bug's
status (default `""`) classifies as `Open`, and no deduction otherwise. -/
def openDeduction (b : Bug) : ℚ :=
  if statusCategory (b.status.getD "") = "Open" then
    severityWeightD (b.severity.getD "Normal") * 2
  else 0

/-- Embedding of `FeatureQualityAnalyzer._calculate_quality_score`:
start at 100, subtract the open-bug deductions, damp by
`0.5 + resolution_rate / 160` when the resolution rate is below 80,
clamp into `[0, 100]`. -/
def _calculate_quality_score (bugs : List Bug) (rr : ℚ) : ℚ :=
  let qs1 : ℚ := bugs.foldl (fun q b => q - openDeduction b) 100
  let qs2 : ℚ := if rr < 80 then qs1 * (1 / 2 + rr / 160) else qs1
  max 0 (min 100 qs2)

/-- Embedding of `FeatureQualityAnalyzer._determine_quality_grade`. -/
def _determine_quality_grade (quality_score : ℚ) : String :=
  if 95 ≤ quality_score then "A+"
  else if 90 ≤ quality_score then "A"
  else if 85 ≤ quality_score then "A-"
  else if 80 ≤ quality_score then "B+"
  else if 75 ≤ quality_score then "B"
  else if 70 ≤ quality_score then "B-"
  else if 65 ≤ quality_score then "C+"
  else if 60 ≤ quality_score then "C"
  else if 55 ≤ quality_score then "C-"
  else if 50 ≤ quality_score then "D+"
  else if 45 ≤ quality_score then "D"
  else "F"

/-- The `quality_score` field of `analyze_feature_quality`'s result:
`_calculate_quality_score(linked_bugs, resolution_rate)` (line 131). -/
def quality_score (bugs : List Bug) : ℚ :=
  _calculate_quality_score bugs (resolution_rate bugs)

/-- The `quality_grade` field of `analyze_feature_quality`'s result
(line 134). -/
def quality_grade (bugs : List Bug) : String :=
  _determine_quality_grade (quality_score bugs)

/-- Ordinal rank of the twelve letter grades (`"F"` lowest, `"A+"` highest);
used to state that grading is a non-decreasing step function. -/
def gradeRank (g : String) : ℕ :=
  if g = "A+" then 11
  else if g = "A" then 10
  else if g = "A-" then 9
  else if g = "B+" then 8
  else if g = "B" then 7
  else if g = "B-" then 6
  else if g = "C+" then 5
  else if g = "C" then 4
  else if g = "C-" then 3
  else if g = "D+" then 2
  else if g = "D" then 1
  else 0

/-- The grade bands as a threshold table: grade rank `n` is awarded exactly
when the score reaches the paired threshold (used to reason uniformly about
the twelve-way if-chain). -/
def chainVal : List (ℚ × ℕ) → ℚ → ℕ
  | [], _ => 0
  | (c, n) :: rest, s => if c ≤ s then n else chainVal rest s

/-- Thresholds and ordinal ranks of `_determine_quality_grade`'s bands. -/
def gradeTable : List (ℚ × ℕ) :=
  [(95, 11), (90, 10), (85, 9), (80, 8), (75, 7), (70, 6), (65, 5), (60, 4),
   (55, 3), (50, 2), (45, 1)]

/-- Sum of the per-bug open deductions (the total amount the loop of
`_calculate_quality_score` subtracts from 100). -/
def deductionSum (bugs : List Bug) : ℚ := (bugs.map openDeduction).sum

/-! ### Classification Advisor parser (`fastgpt_client.py`, `parse_analysis_result`) -/

/-- The labeled prefix `"特性ID:"` (feature-id line). -/
def labelFeatureId : List Char := "特性ID:".data

/-- The labeled prefix `"相关度:"` (confidence line). -/
def labelConfidence : List Char := "相关度:".data

/-- The labeled prefix `"理由:"` (reason line). -/
def labelReason : List Char := "理由:".data

/-- The parser's defaults: `feature_id = "未确定"`, `confidence = "未知"`,
`reason = ""`. -/
def defaultTriple : List Char × List Char × List Char :=
  ("未确定".data, "未知".data, [])

/-- One iteration of the parsing loop: strip the line, and when it starts
with one of the three labeled prefixes, replace the label by the empty
string, strip, and store the field. -/
def parseStep (acc : List Char × List Char × List Char) (rawLine : List Char) :
    List Char × List Char × List Char :=
  let line := strip rawLine
  if labelFeatureId.isPrefixOf line then
    (strip (replaceAll line labelFeatureId), acc.2.1, acc.2.2)
  else if labelConfidence.isPrefixOf line then
    (acc.1, strip (replaceAll line labelConfidence), acc.2.2)
  else if labelReason.isPrefixOf line then
    (acc.1, acc.2.1, strip (replaceAll line labelReason))
  else acc

/-- Embedding of `FastGPTClient.parse_analysis_result`: the line loop runs
only when the input contains a newline (`"\n" in analysis_result`);
otherwise the defaults are returned unchanged. -/
def parse_analysis_result (analysis_result : List Char) :
    List Char × List Char × List Char :=
  if '\n' ∈ analysis_result then
    (splitOnNL analysis_result).foldl parseStep defaultTriple
  else defaultTriple

/-! ## Helper lemmas -/

theorem toNat_ofNat_valid (n : Nat) (h : n.isValidChar) : (Char.ofNat n).toNat = n := by
  simp [Char.ofNat, dif_pos h, Char.ofNatAux, Char.toNat]
  rfl

theorem isWhitespace_toLower_eq_false {c : Char} (h : c.isWhitespace = false) :
    c.toLower.isWhitespace = false := by
  simp only [Char.toLower]
  split
  next hn =>
    have hv : (c.toNat + 32).isValidChar := Or.inl (by omega)
    have ht : (Char.ofNat (c.toNat + 32)).toNat = c.toNat + 32 := toNat_ofNat_valid _ hv
    have hgen : ∀ w : Char, w.toNat ≠ c.toNat + 32 → Char.ofNat (c.toNat + 32) ≠ w := by
      intro w hw he
      rw [he] at ht
      exact hw ht
    have h1 : Char.ofNat (c.toNat + 32) ≠ ' ' := by
      refine hgen ' ' ?_
      have hsp : (' ' : Char).toNat = 32 := by decide
      omega
    have h2 : Char.ofNat (c.toNat + 32) ≠ '\t' := by
      refine hgen '\t' ?_
      have hsp : ('\t' : Char).toNat = 9 := by decide
      omega
    have h3 : Char.ofNat (c.toNat + 32) ≠ '\r' := by
      refine hgen '\r' ?_
      have hsp : ('\r' : Char).toNat = 13 := by decide
      omega
    have h4 : Char.ofNat (c.toNat + 32) ≠ '\n' := by
      refine hgen '\n' ?_
      have hsp : ('\n' : Char).toNat = 10 := by decide
      omega
    simp [Char.isWhitespace, h1, h2, h3, h4]
  next => exact h

theorem splitWsAux_ne_nil_of_acc (l acc : List Char) (h : acc ≠ []) :
    splitWsAux l acc ≠ [] := by
  induction l generalizing acc with
  | nil => simp [splitWsAux, h]
  | cons c cs ih =>
    by_cases h1 : c.isWhitespace
    · simp [splitWsAux, h1, h]
    · have hih := ih (c :: acc) (List.cons_ne_nil _ _)
      simpa [splitWsAux, h1] using hih

theorem splitWs_ne_nil {l : List Char} (h : ∃ c ∈ l, c.isWhitespace = false) :
    splitWs l ≠ [] := by
  obtain ⟨c, hc, hw⟩ := h
  induction l with
  | nil => cases hc
  | cons d ds ih =>
    by_cases hd : d.isWhitespace
    · have hc' : c ∈ ds := by
        rcases List.mem_cons.mp hc with hc | hc
        · exfalso; rw [hc] at hw; rw [hw] at hd; cases hd
        · exact hc
      have hne := ih hc'
      simpa [splitWs, splitWsAux, hd] using hne
    · have hne : splitWsAux ds [d] ≠ [] :=
        splitWsAux_ne_nil_of_acc _ _ (List.cons_ne_nil _ _)
      simpa [splitWs, splitWsAux, hd] using hne

theorem tokens_ne_empty {a : List Char} (h : ∃ c ∈ a, c.isWhitespace = false) :
    tokens a ≠ ∅ := by
  obtain ⟨c, hc, hw⟩ := h
  have hm : ∃ d ∈ a.map Char.toLower, d.isWhitespace = false :=
    ⟨c.toLower, List.mem_map_of_mem _ hc, isWhitespace_toLower_eq_false hw⟩
  have hs := splitWs_ne_nil hm
  simpa [tokens, List.toFinset_eq_empty_iff] using hs

theorem grade_band_Ap {s : ℚ} (h1 : 95 ≤ s) : _determine_quality_grade s = "A+" := by
  unfold _determine_quality_grade
  rw [if_pos h1]

theorem grade_band_A {s : ℚ} (h1 : 90 ≤ s) (h2 : s < 95) :
    _determine_quality_grade s = "A" := by
  unfold _determine_quality_grade
  rw [if_neg (by linarith), if_pos h1]

theorem grade_band_Am {s : ℚ} (h1 : 85 ≤ s) (h2 : s < 90) :
    _determine_quality_grade s = "A-" := by
  unfold _determine_quality_grade
  rw [if_neg (by linarith), if_neg (by linarith), if_pos h1]

theorem grade_band_Bp {s : ℚ} (h1 : 80 ≤ s) (h2 : s < 85) :
    _determine_quality_grade s = "B+" := by
  unfold _determine_quality_grade
  rw [if_neg (by linarith), if_neg (by linarith), if_neg (by linarith), if_pos h1]

theorem grade_band_B {s : ℚ} (h1 : 75 ≤ s) (h2 : s < 80) :
    _determine_quality_grade s = "B" := by
  unfold _determine_quality_grade
  rw [if_neg (by linarith), if_neg (by linarith), if_neg (by linarith),
    if_neg (by linarith), if_pos h1]

theorem grade_band_Bm {s : ℚ} (h1 : 70 ≤ s) (h2 : s < 75) :
    _determine_quality_grade s = "B-" := by
  unfold _determine_quality_grade
  rw [if_neg (by linarith), if_neg (by linarith), if_neg (by linarith),
    if_neg (by linarith), if_neg (by linarith), if_pos h1]

theorem grade_band_Cp {s : ℚ} (h1 : 65 ≤ s) (h2 : s < 70) :
    _determine_quality_grade s = "C+" := by
  unfold _determine_quality_grade
  rw [if_neg (by linarith), if_neg (by linarith), if_neg (by linarith),
    if_neg (by linarith), if_neg (by linarith), if_neg (by linarith), if_pos h1]

theorem grade_band_C {s : ℚ} (h1 : 60 ≤ s) (h2 : s < 65) :
    _determine_quality_grade s = "C" := by
  unfold _determine_quality_grade
  rw [if_neg (by linarith), if_neg (by linarith), if_neg (by linarith),
    if_neg (by linarith), if_neg (by linarith), if_neg (by linarith),
    if_neg (by linarith), if_pos h1]

theorem grade_band_Cm {s : ℚ} (h1 : 55 ≤ s) (h2 : s < 60) :
    _determine_quality_grade s = "C-" := by
  unfold _determine_quality_grade
  rw [if_neg (by linarith), if_neg (by linarith), if_neg (by linarith),
    if_neg (by linarith), if_neg (by linarith), if_neg (by linarith),
    if_neg (by linarith), if_neg (by linarith), if_pos h1]

theorem grade_band_Dp {s : ℚ} (h1 : 50 ≤ s) (h2 : s < 55) :
    _determine_quality_grade s = "D+" := by
  unfold _determine_quality_grade
  rw [if_neg (by linarith), if_neg (by linarith), if_neg (by linarith),
    if_neg (by linarith), if_neg (by linarith), if_neg (by linarith),
    if_neg (by linarith), if_neg (by linarith), if_neg (by linarith), if_pos h1]

theorem grade_band_D {s : ℚ} (h1 : 45 ≤ s) (h2 : s < 50) :
    _determine_quality_grade s = "D" := by
  unfold _determine_quality_grade
  rw [if_neg (by linarith), if_neg (by linarith), if_neg (by linarith),
    if_neg (by linarith), if_neg (by linarith), if_neg (by linarith),
    if_neg (by linarith), if_neg (by linarith), if_neg (by linarith),
    if_neg (by linarith), if_pos h1]

theorem grade_band_F {s : ℚ} (h1 : s < 45) : _determine_quality_grade s = "F" := by
  unfold _determine_quality_grade
  rw [if_neg (by linarith), if_neg (by linarith), if_neg (by linarith),
    if_neg (by linarith), if_neg (by linarith), if_neg (by linarith),
    if_neg (by linarith), if_neg (by linarith), if_neg (by linarith),
    if_neg (by linarith), if_neg (by linarith)]

theorem grade_mem_twelve (s : ℚ) :
    _determine_quality_grade s ∈
      (["A+", "A", "A-", "B+", "B", "B-", "C+", "C", "C-", "D+", "D", "F"] :
        List String) := by
  unfold _determine_quality_grade
  split_ifs <;> simp

theorem chainVal_le {n : ℕ} {rest : List (ℚ × ℕ)} (s : ℚ)
    (h : ∀ p ∈ rest, p.2 ≤ n) : chainVal rest s ≤ n := by
  induction rest with
  | nil => simp [chainVal]
  | cons p ps ih =>
    obtain ⟨c, m⟩ := p
    simp only [chainVal]
    split_ifs
    · exact h (c, m) (List.mem_cons_self _ _)
    · exact ih fun q hq => h q (List.mem_cons_of_mem _ hq)

theorem chainVal_mono {s t : ℚ} (l : List (ℚ × ℕ))
    (hl : l.Pairwise fun p q => q.2 ≤ p.2) (hst : s ≤ t) :
    chainVal l s ≤ chainVal l t := by
  induction l with
  | nil => simp [chainVal]
  | cons p ps ih =>
    obtain ⟨c, n⟩ := p
    rw [List.pairwise_cons] at hl
    by_cases hs : c ≤ s
    · have ht : c ≤ t := le_trans hs hst
      simp [chainVal, hs, ht]
    · by_cases ht : c ≤ t
      · simp only [chainVal, if_neg hs, if_pos ht]
        exact chainVal_le s fun q hq => hl.1 q hq
      · simp only [chainVal, if_neg hs, if_neg ht]
        exact ih hl.2

theorem gradeRank_grade_eq (s : ℚ) :
    gradeRank (_determine_quality_grade s) = chainVal gradeTable s := by
  unfold _determine_quality_grade
  simp only [gradeTable, chainVal]
  split_ifs <;> simp [gradeRank]

theorem gradeRank_mono {s t : ℚ} (hst : s ≤ t) :
    gradeRank (_determine_quality_grade s) ≤ gradeRank (_determine_quality_grade t) := by
  rw [gradeRank_grade_eq, gradeRank_grade_eq]
  refine chainVal_mono _ ?_ hst
  norm_num [gradeTable]

theorem splitOnNL_no_nl {l : List Char} (h : '\n' ∉ l) : splitOnNL l = [l] := by
  induction l with
  | nil => rfl
  | cons c cs ih =>
    have hc : c ≠ '\n' := fun hc => h (by simp [hc])
    have h' : '\n' ∉ cs := fun hm => h (List.mem_cons_of_mem _ hm)
    simp only [splitOnNL, if_neg hc, ih h']

theorem splitOnNL_append {a b : List Char} (h : '\n' ∉ a) :
    splitOnNL (a ++ '\n' :: b) = a :: splitOnNL b := by
  induction a with
  | nil => simp [splitOnNL]
  | cons c a' ih =>
    have hc : c ≠ '\n' := fun hc => h (by simp [hc])
    have h' : '\n' ∉ a' := fun hm => h (List.mem_cons_of_mem _ hm)
    simp only [List.cons_append, splitOnNL, if_neg hc, List.append_eq]
    rw [ih h']

theorem isPrefixOf_append_self (l x : List Char) : l.isPrefixOf (l ++ x) = true := by
  induction l with
  | nil => simp
  | cons c cs ih => simp [List.isPrefixOf, ih]

theorem isPrefixOf_ne_first {c d : Char} (h : c ≠ d) (x y : List Char) :
    (c :: x).isPrefixOf (d :: y) = false := by
  simp [List.isPrefixOf, h]

theorem isPrefixOf_append_of {l m : List Char} (t : List Char)
    (h : l.isPrefixOf m = true) : l.isPrefixOf (m ++ t) = true := by
  induction l generalizing m with
  | nil => simp
  | cons a as ih =>
    cases m with
    | nil => cases h
    | cons b bs =>
      simp only [List.isPrefixOf, Bool.and_eq_true, beq_iff_eq] at h
      simp [List.isPrefixOf, h.1, ih h.2]

theorem containsSub_pat_nil (l : List Char) : containsSub l [] = true := by
  cases l <;> simp [containsSub, List.isPrefixOf]

theorem containsSub_append_of {m : List Char} (t pat : List Char)
    (h : containsSub m pat = true) : containsSub (m ++ t) pat = true := by
  induction m with
  | nil =>
    simp only [containsSub, List.isEmpty_iff] at h
    rw [h]
    exact containsSub_pat_nil t
  | cons c cs ih =>
    simp only [containsSub, Bool.or_eq_true] at h
    rcases h with h | h
    · have := isPrefixOf_append_of t h
      simp only [List.cons_append, containsSub, Bool.or_eq_true]
      exact Or.inl (by simpa using this)
    · simp only [List.cons_append, containsSub, Bool.or_eq_true]
      exact Or.inr (ih h)

theorem replaceAllFuel_no_occur (fuel : Nat) (l pat : List Char)
    (h : containsSub l pat = false) : replaceAllFuel fuel l pat = l := by
  induction fuel generalizing l with
  | zero => rfl
  | succ f ih =>
    cases l with
    | nil => rfl
    | cons c cs =>
      simp only [containsSub, Bool.or_eq_false_iff] at h
      simp only [replaceAllFuel, h.1, Bool.false_eq_true, if_false]
      rw [ih cs h.2]

theorem replaceAll_no_occur (l pat : List Char) (h : containsSub l pat = false) :
    replaceAll l pat = l := by
  unfold replaceAll
  split
  · rfl
  · exact replaceAllFuel_no_occur _ _ _ h

theorem replaceAll_label (pat v : List Char) (hpat : pat ≠ [])
    (hv : containsSub v pat = false) : replaceAll (pat ++ v) pat = v := by
  unfold replaceAll
  rw [if_neg hpat]
  obtain ⟨p, ps, rfl⟩ : ∃ p ps, pat = p :: ps := by
    cases pat with
    | nil => exact absurd rfl hpat
    | cons p ps => exact ⟨p, ps, rfl⟩
  rw [show (p :: ps) ++ v = p :: (ps ++ v) from rfl, List.length_cons]
  simp only [replaceAllFuel]
  rw [show p :: (ps ++ v) = (p :: ps) ++ v from rfl,
    isPrefixOf_append_self (p :: ps) v]
  simp only [if_true]
  rw [List.drop_left]
  exact replaceAllFuel_no_occur _ _ _ hv

theorem dropWhile_append_mid {p : Char → Bool} {b : Char} (hb : p b = false)
    (xs ys : List Char) :
    (xs ++ b :: ys).dropWhile p = xs.dropWhile p ++ b :: ys := by
  induction xs with
  | nil => simp [List.dropWhile_cons, hb]
  | cons x xs ih =>
    by_cases hx : p x
    · simpa [List.dropWhile_cons, hx] using ih
    · simp [List.dropWhile_cons, hx]

theorem dropWhile_idem (p : Char → Bool) (l : List Char) :
    (l.dropWhile p).dropWhile p = l.dropWhile p := by
  induction l with
  | nil => rfl
  | cons c cs ih =>
    by_cases hc : p c
    · simpa [List.dropWhile_cons, hc] using ih
    · simp [List.dropWhile_cons, hc]

theorem rdropWs_cons (c : Char) (cs : List Char) :
    rdropWs (c :: cs) =
      if rdropWs cs = [] then (if c.isWhitespace then [] else [c])
      else c :: rdropWs cs := by
  by_cases h : cs.reverse.dropWhile Char.isWhitespace = []
  · have h2 : rdropWs cs = [] := by simp [rdropWs, h]
    rw [if_pos h2]
    unfold rdropWs
    rw [List.reverse_cons, List.dropWhile_append, if_pos (by simp [h])]
    by_cases hc : c.isWhitespace
    · simp [List.dropWhile_cons, hc]
    · simp [List.dropWhile_cons, hc]
  · have h2 : rdropWs cs ≠ [] := by simp [rdropWs, h]
    rw [if_neg h2]
    unfold rdropWs
    rw [List.reverse_cons, List.dropWhile_append, if_neg (by simp [h])]
    simp

theorem ldropWs_rdropWs_comm (l : List Char) :
    ldropWs (rdropWs l) = rdropWs (ldropWs l) := by
  induction l with
  | nil => rfl
  | cons c cs ih =>
    by_cases hc : c.isWhitespace
    · have hl : ldropWs (c :: cs) = ldropWs cs := by
        simp [ldropWs, List.dropWhile_cons, hc]
      rw [rdropWs_cons, hl, ← ih]
      by_cases h0 : rdropWs cs = []
      · rw [if_pos h0, if_pos hc, h0]
      · rw [if_neg h0]
        simp [ldropWs, List.dropWhile_cons, hc]
    · have hl : ldropWs (c :: cs) = c :: cs := by
        simp [ldropWs, List.dropWhile_cons, hc]
      rw [hl, rdropWs_cons]
      by_cases h0 : rdropWs cs = []
      · rw [if_pos h0, if_neg hc]
        simp [ldropWs, List.dropWhile_cons, hc]
      · rw [if_neg h0]
        simp [ldropWs, List.dropWhile_cons, hc]

theorem rdropWs_idem (l : List Char) : rdropWs (rdropWs l) = rdropWs l := by
  unfold rdropWs
  rw [List.reverse_reverse, dropWhile_idem]

theorem strip_rdropWs (v : List Char) : strip (rdropWs v) = strip v := by
  unfold strip
  rw [ldropWs_rdropWs_comm, rdropWs_idem]

theorem ldropWs_cons_of_not_ws {c : Char} (hc : c.isWhitespace = false) (x : List Char) :
    ldropWs (c :: x) = c :: x := by
  simp [ldropWs, List.dropWhile_cons, hc]

theorem rdropWs_label_append (c : Char) (mid : List Char) {d : Char} (v : List Char)
    (hd : d.isWhitespace = false) :
    rdropWs ((c :: mid ++ [d]) ++ v) = (c :: mid ++ [d]) ++ rdropWs v := by
  unfold rdropWs
  rw [List.reverse_append]
  rw [show (c :: mid ++ [d]).reverse = d :: (mid.reverse ++ [c]) from by simp]
  rw [dropWhile_append_mid hd]
  simp

theorem strip_label_append {c : Char} (hc : c.isWhitespace = false) (mid : List Char)
    {d : Char} (hd : d.isWhitespace = false) (v : List Char) :
    strip ((c :: mid ++ [d]) ++ v) = (c :: mid ++ [d]) ++ rdropWs v := by
  unfold strip
  rw [show (c :: mid ++ [d]) ++ v = c :: ((mid ++ [d]) ++ v) from by simp,
    ldropWs_cons_of_not_ws hc]
  rw [show c :: ((mid ++ [d]) ++ v) = (c :: mid ++ [d]) ++ v from by simp]
  exact rdropWs_label_append c mid v hd

theorem rdropWs_append_sub (v : List Char) :
    rdropWs v ++ (v.reverse.takeWhile Char.isWhitespace).reverse = v := by
  unfold rdropWs
  rw [← List.reverse_append, List.takeWhile_append_dropWhile, List.reverse_reverse]

theorem containsSub_rdropWs_false {v pat : List Char}
    (h : containsSub v pat = false) : containsSub (rdropWs v) pat = false := by
  cases hres : containsSub (rdropWs v) pat
  · rfl
  · exfalso
    have h2 := containsSub_append_of
      (v.reverse.takeWhile Char.isWhitespace).reverse pat hres
    rw [rdropWs_append_sub] at h2
    rw [h2] at h
    cases h

theorem labelFeatureId_shape : labelFeatureId = '特' :: (['性', 'I', 'D'] ++ [':']) := by
  decide

theorem labelConfidence_shape : labelConfidence = '相' :: (['关', '度'] ++ [':']) := by
  decide

theorem labelReason_shape : labelReason = '理' :: (['由'] ++ [':']) := by
  decide

theorem parseStep_line1 (acc : List Char × List Char × List Char) (v : List Char)
    (hv : containsSub v labelFeatureId = false) :
    parseStep acc (labelFeatureId ++ v) = (strip v, acc.2.1, acc.2.2) := by
  have hstrip : strip (labelFeatureId ++ v) = labelFeatureId ++ rdropWs v := by
    rw [labelFeatureId_shape]
    exact strip_label_append (by decide) _ (by decide) v
  have hpre : labelFeatureId.isPrefixOf (strip (labelFeatureId ++ v)) = true := by
    rw [hstrip]
    exact isPrefixOf_append_self _ _
  have hrep : replaceAll (strip (labelFeatureId ++ v)) labelFeatureId = rdropWs v := by
    rw [hstrip]
    exact replaceAll_label _ _ (by decide) (containsSub_rdropWs_false hv)
  simp only [parseStep]
  rw [if_pos hpre, hrep, strip_rdropWs]

theorem parseStep_line2 (acc : List Char × List Char × List Char) (v : List Char)
    (hv : containsSub v labelConfidence = false) :
    parseStep acc (labelConfidence ++ v) = (acc.1, strip v, acc.2.2) := by
  have hstrip : strip (labelConfidence ++ v) = labelConfidence ++ rdropWs v := by
    rw [labelConfidence_shape]
    exact strip_label_append (by decide) _ (by decide) v
  have hno1 : labelFeatureId.isPrefixOf (strip (labelConfidence ++ v)) = false := by
    rw [hstrip, labelConfidence_shape, List.cons_append, labelFeatureId_shape]
    exact isPrefixOf_ne_first (by decide) _ _
  have hpre : labelConfidence.isPrefixOf (strip (labelConfidence ++ v)) = true := by
    rw [hstrip]
    exact isPrefixOf_append_self _ _
  have hrep : replaceAll (strip (labelConfidence ++ v)) labelConfidence = rdropWs v := by
    rw [hstrip]
    exact replaceAll_label _ _ (by decide) (containsSub_rdropWs_false hv)
  simp only [parseStep]
  rw [if_neg (by rw [hno1]; exact Bool.false_ne_true), if_pos hpre, hrep, strip_rdropWs]

theorem parseStep_line3 (acc : List Char × List Char × List Char) (v : List Char)
    (hv : containsSub v labelReason = false) :
    parseStep acc (labelReason ++ v) = (acc.1, acc.2.1, strip v) := by
  have hstrip : strip (labelReason ++ v) = labelReason ++ rdropWs v := by
    rw [labelReason_shape]
    exact strip_label_append (by decide) _ (by decide) v
  have hno1 : labelFeatureId.isPrefixOf (strip (labelReason ++ v)) = false := by
    rw [hstrip, labelReason_shape, List.cons_append, labelFeatureId_shape]
    exact isPrefixOf_ne_first (by decide) _ _
  have hno2 : labelConfidence.isPrefixOf (strip (labelReason ++ v)) = false := by
    rw [hstrip, labelReason_shape, List.cons_append, labelConfidence_shape]
    exact isPrefixOf_ne_first (by decide) _ _
  have hpre : labelReason.isPrefixOf (strip (labelReason ++ v)) = true := by
    rw [hstrip]
    exact isPrefixOf_append_self _ _
  have hrep : replaceAll (strip (labelReason ++ v)) labelReason = rdropWs v := by
    rw [hstrip]
    exact replaceAll_label _ _ (by decide) (containsSub_rdropWs_false hv)
  simp only [parseStep]
  rw [if_neg (by rw [hno1]; exact Bool.false_ne_true),
    if_neg (by rw [hno2]; exact Bool.false_ne_true), if_pos hpre, hrep, strip_rdropWs]

theorem parseStep_skip {acc : List Char × List Char × List Char} {l : List Char}
    (h1 : labelFeatureId.isPrefixOf (strip l) = false)
    (h2 : labelConfidence.isPrefixOf (strip l) = false)
    (h3 : labelReason.isPrefixOf (strip l) = false) :
    parseStep acc l = acc := by
  simp only [parseStep]
  rw [if_neg (by rw [h1]; exact Bool.false_ne_true),
    if_neg (by rw [h2]; exact Bool.false_ne_true),
    if_neg (by rw [h3]; exact Bool.false_ne_true)]

theorem foldl_parseStep_skip (lines : List (List Char))
    (acc : List Char × List Char × List Char)
    (h : ∀ l ∈ lines, labelFeatureId.isPrefixOf (strip l) = false ∧
      labelConfidence.isPrefixOf (strip l) = false ∧
      labelReason.isPrefixOf (strip l) = false) :
    lines.foldl parseStep acc = acc := by
  induction lines generalizing acc with
  | nil => rfl
  | cons l ls ih =>
    rw [List.foldl_cons,
      parseStep_skip (h l (List.mem_cons_self _ _)).1 (h l (List.mem_cons_self _ _)).2.1
        (h l (List.mem_cons_self _ _)).2.2]
    exact ih _ fun l' hl' => h l' (List.mem_cons_of_mem _ hl')

theorem parseStep_fst {acc : List Char × List Char × List Char} {l : List Char}
    (h1 : labelFeatureId.isPrefixOf (strip l) = false) :
    (parseStep acc l).1 = acc.1 := by
  simp only [parseStep]
  rw [if_neg (by rw [h1]; exact Bool.false_ne_true)]
  split_ifs <;> rfl

theorem foldl_parseStep_fst (lines : List (List Char))
    (acc : List Char × List Char × List Char)
    (h : ∀ l ∈ lines, labelFeatureId.isPrefixOf (strip l) = false) :
    (lines.foldl parseStep acc).1 = acc.1 := by
  induction lines generalizing acc with
  | nil => rfl
  | cons l ls ih =>
    rw [List.foldl_cons]
    rw [ih _ fun l' hl' => h l' (List.mem_cons_of_mem _ hl')]
    exact parseStep_fst (h l (List.mem_cons_self _ _))

theorem parseStep_snd {acc : List Char × List Char × List Char} {l : List Char}
    (h2 : labelConfidence.isPrefixOf (strip l) = false) :
    (parseStep acc l).2.1 = acc.2.1 := by
  simp only [parseStep]
  split_ifs with hc1 hc2 hc3
  · rfl
  · exact absurd hc2 (by rw [h2]; exact Bool.false_ne_true)
  · rfl
  · rfl

theorem foldl_parseStep_snd (lines : List (List Char))
    (acc : List Char × List Char × List Char)
    (h : ∀ l ∈ lines, labelConfidence.isPrefixOf (strip l) = false) :
    (lines.foldl parseStep acc).2.1 = acc.2.1 := by
  induction lines generalizing acc with
  | nil => rfl
  | cons l ls ih =>
    rw [List.foldl_cons]
    rw [ih _ fun l' hl' => h l' (List.mem_cons_of_mem _ hl')]
    exact parseStep_snd (h l (List.mem_cons_self _ _))

theorem parseStep_thd {acc : List Char × List Char × List Char} {l : List Char}
    (h3 : labelReason.isPrefixOf (strip l) = false) :
    (parseStep acc l).2.2 = acc.2.2 := by
  simp only [parseStep]
  split_ifs with hc1 hc2 hc3
  · rfl
  · rfl
  · exact absurd hc3 (by rw [h3]; exact Bool.false_ne_true)
  · rfl

theorem foldl_parseStep_thd (lines : List (List Char))
    (acc : List Char × List Char × List Char)
    (h : ∀ l ∈ lines, labelReason.isPrefixOf (strip l) = false) :
    (lines.foldl parseStep acc).2.2 = acc.2.2 := by
  induction lines generalizing acc with
  | nil => rfl
  | cons l ls ih =>
    rw [List.foldl_cons]
    rw [ih _ fun l' hl' => h l' (List.mem_cons_of_mem _ hl')]
    exact parseStep_thd (h l (List.mem_cons_self _ _))

theorem parse_wellformed (v1 v2 v3 : List Char)
    (h1 : '\n' ∉ v1) (h2 : '\n' ∉ v2) (h3 : '\n' ∉ v3)
    (o1 : containsSub v1 labelFeatureId = false)
    (o2 : containsSub v2 labelConfidence = false)
    (o3 : containsSub v3 labelReason = false) :
    parse_analysis_result
      ((labelFeatureId ++ v1) ++
        ('\n' :: ((labelConfidence ++ v2) ++ ('\n' :: (labelReason ++ v3))))) =
      (strip v1, strip v2, strip v3) := by
  have hl1 : '\n' ∉ labelFeatureId ++ v1 := by
    intro hm
    rcases List.mem_append.mp hm with hm | hm
    · revert hm; decide
    · exact h1 hm
  have hl2 : '\n' ∉ labelConfidence ++ v2 := by
    intro hm
    rcases List.mem_append.mp hm with hm | hm
    · revert hm; decide
    · exact h2 hm
  have hl3 : '\n' ∉ labelReason ++ v3 := by
    intro hm
    rcases List.mem_append.mp hm with hm | hm
    · revert hm; decide
    · exact h3 hm
  have hmem : '\n' ∈ (labelFeatureId ++ v1) ++
      ('\n' :: ((labelConfidence ++ v2) ++ ('\n' :: (labelReason ++ v3)))) :=
    List.mem_append_right _ (List.mem_cons_self _ _)
  unfold parse_analysis_result
  rw [if_pos hmem, splitOnNL_append hl1, splitOnNL_append hl2, splitOnNL_no_nl hl3]
  simp only [List.foldl_cons, List.foldl_nil]
  rw [parseStep_line1 _ _ o1, parseStep_line2 _ _ o2, parseStep_line3 _ _ o3]

theorem foldl_sub_deduction (bugs : List Bug) (a : ℚ) :
    bugs.foldl (fun q b => q - openDeduction b) a = a - deductionSum bugs := by
  induction bugs generalizing a with
  | nil => simp [deductionSum]
  | cons b bs ih =>
    simp only [List.foldl_cons, List.map_cons, List.sum_cons, deductionSum] at *
    rw [ih]
    ring

theorem mem_insertDesc {p x : FeedbackEntry × ℚ} {l : List (FeedbackEntry × ℚ)} :
    x ∈ insertDesc p l ↔ x = p ∨ x ∈ l := by
  induction l with
  | nil => simp [insertDesc]
  | cons q qs ih =>
    simp only [insertDesc]
    split_ifs <;> simp only [List.mem_cons, ih] <;> tauto

theorem sorted_insertDesc {p : FeedbackEntry × ℚ} {l : List (FeedbackEntry × ℚ)}
    (h : l.Pairwise fun a b => b.2 ≤ a.2) :
    (insertDesc p l).Pairwise fun a b => b.2 ≤ a.2 := by
  induction l with
  | nil => simp [insertDesc]
  | cons q qs ih =>
    rw [List.pairwise_cons] at h
    simp only [insertDesc]
    split_ifs with hle
    · rw [List.pairwise_cons]
      refine ⟨?_, ih h.2⟩
      intro x hx
      rcases mem_insertDesc.mp hx with rfl | hx
      · exact hle
      · exact h.1 x hx
    · push_neg at hle
      rw [List.pairwise_cons]
      refine ⟨?_, List.pairwise_cons.mpr ⟨h.1, h.2⟩⟩
      intro x hx
      rcases List.mem_cons.mp hx with rfl | hx
      · exact le_of_lt hle
      · exact le_trans (h.1 x hx) (le_of_lt hle)

theorem sortDesc_append (l : List (FeedbackEntry × ℚ)) (p : FeedbackEntry × ℚ) :
    sortDescBySim (l ++ [p]) = insertDesc p (sortDescBySim l) := by
  unfold sortDescBySim
  rw [List.foldl_append]
  rfl

theorem mem_sortDesc {x : FeedbackEntry × ℚ} {l : List (FeedbackEntry × ℚ)} :
    x ∈ sortDescBySim l ↔ x ∈ l := by
  induction l using List.reverseRecOn with
  | nil => simp [sortDescBySim]
  | append_singleton l p ih =>
    rw [sortDesc_append, mem_insertDesc, ih, List.mem_append, List.mem_singleton]
    tauto

theorem sorted_sortDesc (l : List (FeedbackEntry × ℚ)) :
    (sortDescBySim l).Pairwise fun a b => b.2 ≤ a.2 := by
  induction l using List.reverseRecOn with
  | nil => simp [sortDescBySim]
  | append_singleton l p ih =>
    rw [sortDesc_append]
    exact sorted_insertDesc ih

theorem filter_insertDesc {p : FeedbackEntry × ℚ} {l : List (FeedbackEntry × ℚ)}
    (h : l.Pairwise fun a b => b.2 ≤ a.2) (s : ℚ) :
    (insertDesc p l).filter (fun q => decide (q.2 = s)) =
      if p.2 = s then l.filter (fun q => decide (q.2 = s)) ++ [p]
      else l.filter (fun q => decide (q.2 = s)) := by
  induction l with
  | nil => by_cases hs : p.2 = s <;> simp [insertDesc, hs]
  | cons q qs ih =>
    rw [List.pairwise_cons] at h
    have ihh := ih h.2
    by_cases hle : p.2 ≤ q.2
    · rw [show insertDesc p (q :: qs) = q :: insertDesc p qs from by
        simp [insertDesc, hle]]
      by_cases hps : p.2 = s
      · rw [if_pos hps] at ihh ⊢
        by_cases hqs : q.2 = s <;>
          simp [List.filter_cons, hqs, ihh]
      · rw [if_neg hps] at ihh ⊢
        by_cases hqs : q.2 = s <;>
          simp [List.filter_cons, hqs, ihh]
    · rw [show insertDesc p (q :: qs) = p :: q :: qs from by
        simp [insertDesc, hle]]
      push_neg at hle
      by_cases hps : p.2 = s
      · rw [if_pos hps]
        have hnil : (q :: qs).filter (fun r => decide (r.2 = s)) = [] := by
          rw [List.filter_eq_nil_iff]
          intro r hr
          simp only [decide_eq_true_eq]
          intro hrs
          rcases List.mem_cons.mp hr with rfl | hr
          · exact absurd (hrs.trans hps.symm) (ne_of_lt hle)
          · have h1 := h.1 r hr
            have h2 : r.2 < p.2 := lt_of_le_of_lt h1 hle
            rw [hrs, hps] at h2
            exact lt_irrefl s h2
        rw [hnil]
        simp [List.filter_cons, hps, hnil]
      · rw [if_neg hps]
        simp [List.filter_cons, hps]

theorem filter_sortDesc (l : List (FeedbackEntry × ℚ)) (s : ℚ) :
    (sortDescBySim l).filter (fun q => decide (q.2 = s)) =
      l.filter (fun q => decide (q.2 = s)) := by
  induction l using List.reverseRecOn with
  | nil => rfl
  | append_singleton l p ih =>
    rw [sortDesc_append, filter_insertDesc (sorted_sortDesc l) s, List.filter_append]
    by_cases hps : p.2 = s
    · rw [if_pos hps, ih]
      simp [List.filter_cons, hps]
    · rw [if_neg hps, ih]
      simp [List.filter_cons, hps]

theorem get_relevant_feedback_eq (store : List FeedbackEntry) (title : List Char) :
    get_relevant_feedback store title =
      (sortDescBySim (relevantList store title)).take max_feedback_examples := by
  unfold get_relevant_feedback
  split_ifs with hst
  · rw [List.isEmpty_iff] at hst
    subst hst
    rfl
  · rfl

theorem severityWeightD_nonneg (s : String) : 0 ≤ severityWeightD s := by
  unfold severityWeightD severity_weights
  split_ifs <;> norm_num [Option.getD]

theorem openDeduction_nonneg (b : Bug) : 0 ≤ openDeduction b := by
  unfold openDeduction
  split_ifs
  · exact mul_nonneg (severityWeightD_nonneg _) (by norm_num)
  · exact le_refl 0

theorem deductionSum_nonneg (bugs : List Bug) : 0 ≤ deductionSum bugs := by
  apply List.sum_nonneg
  intro x hx
  rcases List.mem_map.mp hx with ⟨b, _, rfl⟩
  exact openDeduction_nonneg b

theorem deductionSum_append (bugs : List Bug) (b : Bug) :
    deductionSum (bugs ++ [b]) = deductionSum bugs + openDeduction b := by
  simp [deductionSum]

theorem openDeduction_blocker (b : Bug) (hs : b.status = some "Open")
    (hv : b.severity = some "Blocker") : openDeduction b = 10 := by
  simp [openDeduction, hs, hv, statusCategory, status_categories,
    severityWeightD, severity_weights]
  norm_num

theorem resolvedCount_append_open (bugs : List Bug) (b : Bug)
    (hs : b.status = some "Open") :
    resolvedCount (bugs ++ [b]) = resolvedCount bugs := by
  unfold resolvedCount
  rw [List.countP_append]
  simp [hs, statusCategory, status_categories]

theorem resolution_rate_nonneg (bugs : List Bug) : 0 ≤ resolution_rate bugs := by
  unfold resolution_rate
  split_ifs
  · positivity
  · norm_num

theorem resolution_rate_le_100 (bugs : List Bug) : resolution_rate bugs ≤ 100 := by
  unfold resolution_rate
  split_ifs with h
  · have h1 : (resolvedCount bugs : ℚ) ≤ (bugs.length : ℚ) := by
      exact_mod_cast List.countP_le_length _
    have h2 : (0 : ℚ) < (bugs.length : ℚ) := by exact_mod_cast h
    rw [div_mul_eq_mul_div, div_le_iff h2]
    nlinarith
  · norm_num

theorem resolution_rate_append_le (bugs : List Bug) (b : Bug)
    (hs : b.status = some "Open") :
    resolution_rate (bugs ++ [b]) ≤ resolution_rate bugs := by
  have hcount := resolvedCount_append_open bugs b hs
  by_cases h : 0 < bugs.length
  · unfold resolution_rate
    rw [if_pos (by simp), if_pos h, hcount]
    have hT : (0 : ℚ) < (bugs.length : ℚ) := by exact_mod_cast h
    have hlen : ((bugs ++ [b]).length : ℚ) = (bugs.length : ℚ) + 1 := by
      push_cast [List.length_append]
      norm_num
    rw [hlen]
    have hR : (0 : ℚ) ≤ (resolvedCount bugs : ℚ) := by positivity
    rw [div_mul_eq_mul_div, div_mul_eq_mul_div,
      div_le_div_iff (by linarith) hT]
    nlinarith
  · have hnil : bugs = [] := List.length_eq_zero.mp (by omega)
    subst hnil
    unfold resolution_rate resolvedCount
    simp [hs, statusCategory, status_categories]

theorem score_inner_facts {base rr rr2 : ℚ} (hb : base ≤ 100) (h0 : 0 ≤ rr2)
    (h12 : rr2 ≤ rr) :
    (0 < (if rr < 80 then base * (1 / 2 + rr / 160) else base) →
      (if rr2 < 80 then (base - 10) * (1 / 2 + rr2 / 160) else base - 10) <
        (if rr < 80 then base * (1 / 2 + rr / 160) else base)) ∧
    ((if rr < 80 then base * (1 / 2 + rr / 160) else base) ≤ 0 →
      (if rr2 < 80 then (base - 10) * (1 / 2 + rr2 / 160) else base - 10) ≤ 0) ∧
    (if rr < 80 then base * (1 / 2 + rr / 160) else base) ≤ 100 := by
  rcases lt_or_le rr 80 with hrr | hrr <;> rcases lt_or_le rr2 80 with hrr2 | hrr2
  · -- rr < 80, rr2 < 80
    rw [if_pos hrr, if_pos hrr2]
    have hf2a : (0 : ℚ) < 1 / 2 + rr2 / 160 := by linarith
    have hfa : (0 : ℚ) < 1 / 2 + rr / 160 := by linarith
    have hfb : 1 / 2 + rr / 160 < 1 := by linarith
    have hff : 1 / 2 + rr2 / 160 ≤ 1 / 2 + rr / 160 := by linarith
    refine ⟨?_, ?_, ?_⟩
    · intro hpos
      have hbase : 0 < base := by nlinarith
      rcases le_or_lt (base - 10) 0 with h10 | h10
      · have h1 : (base - 10) * (1 / 2 + rr2 / 160) ≤ 0 :=
          mul_nonpos_of_nonpos_of_nonneg h10 hf2a.le
        linarith
      · have h1 : (base - 10) * (1 / 2 + rr2 / 160) ≤ (base - 10) * (1 / 2 + rr / 160) :=
          mul_le_mul_of_nonneg_left hff h10.le
        have h2 : (base - 10) * (1 / 2 + rr / 160) < base * (1 / 2 + rr / 160) :=
          mul_lt_mul_of_pos_right (by linarith) hfa
        linarith
    · intro hneg
      have hbase : base ≤ 0 := by nlinarith
      exact mul_nonpos_of_nonpos_of_nonneg (by linarith) hf2a.le
    · rcases le_or_lt base 0 with hb0 | hb0
      · nlinarith
      · nlinarith
  · -- rr < 80, 80 ≤ rr2: impossible
    exfalso
    linarith
  · -- 80 ≤ rr, rr2 < 80
    rw [if_neg (not_lt.mpr hrr), if_pos hrr2]
    have hf2a : (0 : ℚ) < 1 / 2 + rr2 / 160 := by linarith
    have hf2b : 1 / 2 + rr2 / 160 < 1 := by linarith
    refine ⟨?_, ?_, hb⟩
    · intro hpos
      rcases le_or_lt (base - 10) 0 with h10 | h10
      · have h1 : (base - 10) * (1 / 2 + rr2 / 160) ≤ 0 :=
          mul_nonpos_of_nonpos_of_nonneg h10 hf2a.le
        linarith
      · have h1 : (base - 10) * (1 / 2 + rr2 / 160) ≤ (base - 10) * 1 :=
          mul_le_mul_of_nonneg_left hf2b.le h10.le
        linarith
    · intro hneg
      exact mul_nonpos_of_nonpos_of_nonneg (by linarith) hf2a.le
  · -- 80 ≤ rr, 80 ≤ rr2
    rw [if_neg (not_lt.mpr hrr), if_neg (not_lt.mpr hrr2)]
    exact ⟨fun _ => by linarith, fun h => by linarith, hb⟩

theorem clamp_compare {x y : ℚ} (hy100 : y ≤ 100)
    (hlt : 0 < y → x < y) (hle : y ≤ 0 → x ≤ 0) :
    max 0 (min 100 x) ≤ max 0 (min 100 y) ∧
    (0 < max 0 (min 100 y) → max 0 (min 100 x) < max 0 (min 100 y)) ∧
    (max 0 (min 100 y) = 0 → max 0 (min 100 x) = 0) := by
  rcases le_or_lt y 0 with hy | hy
  · have hx := hle hy
    have hY : max 0 (min 100 y) = 0 :=
      max_eq_left (le_trans (min_le_right _ _) hy)
    have hX : max 0 (min 100 x) = 0 :=
      max_eq_left (le_trans (min_le_right _ _) hx)
    rw [hX, hY]
    exact ⟨le_refl 0, fun h => absurd h (lt_irrefl 0), fun _ => rfl⟩
  · have hxy := hlt hy
    have hY : max 0 (min 100 y) = y := by
      rw [min_eq_right hy100, max_eq_right (le_of_lt hy)]
    have hX : max 0 (min 100 x) < y :=
      max_lt hy (lt_of_le_of_lt (min_le_right _ _) hxy)
    rw [hY]
    exact ⟨le_of_lt hX, fun _ => hX, fun h => absurd h (ne_of_gt hy)⟩

/-! ## Claims -/

/-- Claim C5, counterexample: the string `" "` is non-empty, yet
`similarity(" ", " ")` is `0`, not `1` as the claim states for every
non-empty string. -/
theorem claim_c5_counterexample :
    ([' '] : List Char) ≠ [] ∧ _calculate_similarity [' '] [' '] = 0 := by
  constructor
  · decide
  · decide

/-- Claim C5 (amended): the similarity function is symmetric, equals `1` on
`(a, a)` whenever `a`'s token set is non-empty (in particular whenever `a`
contains a non-whitespace character — a non-empty but all-whitespace string
instead yields `0`), equals `0` when the first argument is the empty string,
and always lies in `[0, 1]`. -/
theorem claim_c5_amended :
    (∀ a b : List Char, _calculate_similarity a b = _calculate_similarity b a) ∧
    (∀ a : List Char, tokens a ≠ ∅ → _calculate_similarity a a = 1) ∧
    (∀ b : List Char, _calculate_similarity [] b = 0) ∧
    (∀ a b : List Char,
      0 ≤ _calculate_similarity a b ∧ _calculate_similarity a b ≤ 1) ∧
    (∀ a : List Char, (∃ c ∈ a, c.isWhitespace = false) → tokens a ≠ ∅) := by
  refine ⟨?_, ?_, ?_, ?_, fun a h => tokens_ne_empty h⟩
  · intro a b
    simp only [_calculate_similarity]
    rw [Finset.inter_comm, Finset.union_comm]
    exact if_congr or_comm rfl rfl
  · intro a h
    have hne : (tokens a).Nonempty := Finset.nonempty_iff_ne_empty.mpr h
    have hz : ((tokens a).card : ℚ) ≠ 0 := by
      exact_mod_cast Finset.card_ne_zero.mpr hne
    simp only [_calculate_similarity]
    rw [if_neg (by simp [h]), Finset.inter_self, Finset.union_self,
      if_pos (Finset.card_pos.mpr hne)]
    exact div_self hz
  · intro b
    simp [_calculate_similarity, tokens, splitWs, splitWsAux]
  · intro a b
    simp only [_calculate_similarity]
    split_ifs with h1 h2
    · norm_num
    · constructor
      · positivity
      · rw [div_le_one (by exact_mod_cast h2)]
        exact_mod_cast Finset.card_le_card Finset.inter_subset_union
    · norm_num

/-- Claim C5 witness: evaluating the amended theorem at the concrete
non-whitespace string `"a"` gives similarity `1` with itself. -/
theorem claim_c5_witness :
    tokens ['a'] ≠ ∅ ∧ _calculate_similarity ['a'] ['a'] = 1 :=
  ⟨by decide, claim_c5_amended.2.1 ['a'] (by decide)⟩

/-- Claim C1: `_calculate_quality_score` equals the spec's pipeline — start
from 100, subtract the per-open-bug severity deductions, damp the
post-deduction running score by `0.5 + resolution_rate/160` exactly when
`resolution_rate < 80`, then clamp into `[0, 100]`; consequently the
`quality_score` of the analysis is in `[0, 100]` for every bug list
(including the empty one) and every resolution rate. -/
theorem claim_c1 (bugs : List Bug) (rr : ℚ) :
    _calculate_quality_score bugs rr =
      max 0 (min 100
        (if rr < 80 then (100 - deductionSum bugs) * (1 / 2 + rr / 160)
         else 100 - deductionSum bugs)) ∧
    0 ≤ _calculate_quality_score bugs rr ∧ _calculate_quality_score bugs rr ≤ 100 ∧
    0 ≤ quality_score bugs ∧ quality_score bugs ≤ 100 := by
  refine ⟨?_, ?_, ?_, ?_, ?_⟩
  · simp only [_calculate_quality_score]
    rw [foldl_sub_deduction]
  · exact le_max_left _ _
  · exact max_le (by norm_num) (min_le_left _ _)
  · exact le_max_left _ _
  · exact max_le (by norm_num) (min_le_left _ _)

/-- Claim C2, counterexample: an Open bug with *no* severity field is
defaulted to severity `"Normal"` (weight 2) by `_calculate_quality_score`,
so its deduction is 4 points, not the claimed 2; concretely, a single such
bug at resolution rate 100 scores 96, not 98. -/
theorem claim_c2_counterexample :
    openDeduction ⟨some "Open", none, none, none, none⟩ = 4 ∧
    openDeduction ⟨some "Open", none, none, none, none⟩ ≠ 2 ∧
    _calculate_quality_score [⟨some "Open", none, none, none, none⟩] 100 = 96 := by
  refine ⟨?_, ?_, ?_⟩ <;>
    simp [openDeduction, _calculate_quality_score, statusCategory,
      status_categories, severityWeightD, severity_weights] <;>
    norm_num

/-- Claim C2 (amended): for an Open-classified bug whose severity *label is
present but absent* from the severity weight table, the deduction is the
default weight 1 times 2, i.e. exactly 2 points; a bug with *no* severity
field at all instead degrades to the default severity `"Normal"` (weight 2)
and deducts 4 points. -/
theorem claim_c2_amended (b : Bug) (hOpen : statusCategory (b.status.getD "") = "Open") :
    (∀ s, b.severity = some s → severity_weights s = none → openDeduction b = 2) ∧
    (b.severity = none → openDeduction b = 4) := by
  constructor
  · intro s hs hw
    simp [openDeduction, hOpen, hs, severityWeightD, hw]
  · intro hs
    simp [openDeduction, hOpen, hs, severityWeightD, severity_weights]
    norm_num

/-- Claim C2 witness: an Open bug with the unknown severity label
`"Weird"` deducts exactly 2 points. -/
theorem claim_c2_witness :
    statusCategory ((some "Open" : Option String).getD "") = "Open" ∧
    openDeduction ⟨some "Open", some "Weird", none, none, none⟩ = 2 :=
  ⟨by decide,
    (claim_c2_amended ⟨some "Open", some "Weird", none, none, none⟩ (by decide)).1
      "Weird" rfl (by decide)⟩

/-- Claim C9: `save_feedback` always appends the entry to the in-memory
list; it returns exactly the durable-write outcome as its boolean; on
success the entry is also appended to the durable log, and on failure the
log is unchanged while the in-memory append is *not* rolled back. -/
theorem claim_c9 (st : FeedbackStore) (e : FeedbackEntry) (writeOk : Bool) :
    (save_feedback st e writeOk).1.feedback_data = st.feedback_data ++ [e] ∧
    (save_feedback st e writeOk).2 = writeOk ∧
    (writeOk = true → (save_feedback st e writeOk).1.fileLog = st.fileLog ++ [e]) ∧
    (writeOk = false → (save_feedback st e writeOk).1.fileLog = st.fileLog) := by
  cases writeOk <;> simp [save_feedback]

/-- Claim C9 witness: a concrete failed write reports `false` yet keeps the
in-memory append. -/
theorem claim_c9_witness :
    (save_feedback ⟨[], []⟩ ⟨[], [], [], [], [], []⟩ false).1.feedback_data =
      [] ++ [⟨[], [], [], [], [], []⟩] ∧
    (save_feedback ⟨[], []⟩ ⟨[], [], [], [], [], []⟩ false).1.fileLog = [] :=
  ⟨(claim_c9 ⟨[], []⟩ ⟨[], [], [], [], [], []⟩ false).1,
    (claim_c9 ⟨[], []⟩ ⟨[], [], [], [], [], []⟩ false).2.2.2 rfl⟩

/-- Claim C8: a feature with zero linked bugs gets resolution rate 100,
quality score 100 and grade `"A+"`. -/
theorem claim_c8 :
    resolution_rate [] = 100 ∧ quality_score [] = 100 ∧ quality_grade [] = "A+" := by
  have hq : quality_score [] = 100 := by
    simp [quality_score, resolution_rate, _calculate_quality_score]
    norm_num
  refine ⟨by simp [resolution_rate], hq, ?_⟩
  rw [quality_grade, hq]
  norm_num [_determine_quality_grade]

/-- Claim C3: the grading function is a total step function realizing the
twelve fixed bands (each lower bound inclusive), hits the documented
boundary values (`80 ↦ "B+"`, `79.999 ↦ "B"`), only ever produces the
twelve listed grades, and is non-decreasing in the score (measured by the
ordinal rank of the produced grade). -/
theorem claim_c3 :
    (∀ s : ℚ, 95 ≤ s → _determine_quality_grade s = "A+") ∧
    (∀ s : ℚ, 90 ≤ s → s < 95 → _determine_quality_grade s = "A") ∧
    (∀ s : ℚ, 85 ≤ s → s < 90 → _determine_quality_grade s = "A-") ∧
    (∀ s : ℚ, 80 ≤ s → s < 85 → _determine_quality_grade s = "B+") ∧
    (∀ s : ℚ, 75 ≤ s → s < 80 → _determine_quality_grade s = "B") ∧
    (∀ s : ℚ, 70 ≤ s → s < 75 → _determine_quality_grade s = "B-") ∧
    (∀ s : ℚ, 65 ≤ s → s < 70 → _determine_quality_grade s = "C+") ∧
    (∀ s : ℚ, 60 ≤ s → s < 65 → _determine_quality_grade s = "C") ∧
    (∀ s : ℚ, 55 ≤ s → s < 60 → _determine_quality_grade s = "C-") ∧
    (∀ s : ℚ, 50 ≤ s → s < 55 → _determine_quality_grade s = "D+") ∧
    (∀ s : ℚ, 45 ≤ s → s < 50 → _determine_quality_grade s = "D") ∧
    (∀ s : ℚ, s < 45 → _determine_quality_grade s = "F") ∧
    _determine_quality_grade 80 = "B+" ∧
    _determine_quality_grade (79999 / 1000) = "B" ∧
    (∀ s : ℚ, _determine_quality_grade s ∈
      (["A+", "A", "A-", "B+", "B", "B-", "C+", "C", "C-", "D+", "D", "F"] :
        List String)) ∧
    (["A+", "A", "A-", "B+", "B", "B-", "C+", "C", "C-", "D+", "D", "F"] :
      List String).Nodup ∧
    (["A+", "A", "A-", "B+", "B", "B-", "C+", "C", "C-", "D+", "D", "F"] :
      List String).length = 12 ∧
    (∀ s t : ℚ, s ≤ t →
      gradeRank (_determine_quality_grade s) ≤ gradeRank (_determine_quality_grade t)) := by
  refine ⟨fun s h1 => grade_band_Ap h1, fun s h1 h2 => grade_band_A h1 h2,
    fun s h1 h2 => grade_band_Am h1 h2, fun s h1 h2 => grade_band_Bp h1 h2,
    fun s h1 h2 => grade_band_B h1 h2, fun s h1 h2 => grade_band_Bm h1 h2,
    fun s h1 h2 => grade_band_Cp h1 h2, fun s h1 h2 => grade_band_C h1 h2,
    fun s h1 h2 => grade_band_Cm h1 h2, fun s h1 h2 => grade_band_Dp h1 h2,
    fun s h1 h2 => grade_band_D h1 h2, fun s h1 => grade_band_F h1,
    grade_band_Bp (by norm_num) (by norm_num),
    grade_band_B (by norm_num) (by norm_num),
    grade_mem_twelve, by decide, by decide, fun s t hst => gradeRank_mono hst⟩

/-- Claim C3 witness: the band theorems evaluated at concrete scores:
100 is graded `"A+"` and 80 is graded `"B+"`. -/
theorem claim_c3_witness :
    (95 : ℚ) ≤ 100 ∧ _determine_quality_grade 100 = "A+" ∧
    _determine_quality_grade 80 = "B+" :=
  ⟨by norm_num, claim_c3.1 100 (by norm_num), claim_c3.2.2.2.2.2.2.2.2.2.2.2.2.1⟩

/-- Claim C6: the parser (i) recovers the three field values, trimmed of
surrounding whitespace, from a well-formed three-line labeled response
(each line matched by its exact labeled prefix; the values contain no
newline and do not themselves contain their label); (ii) returns the
documented defaults (`未确定`, `未知`, `""`) on any input none of whose
lines starts with a labeled prefix — it is a total function, so it can
never raise; and (iii) each field whose label is absent from every line
individually keeps its default. -/
theorem claim_c6 :
    (∀ v1 v2 v3 : List Char, '\n' ∉ v1 → '\n' ∉ v2 → '\n' ∉ v3 →
      containsSub v1 labelFeatureId = false →
      containsSub v2 labelConfidence = false →
      containsSub v3 labelReason = false →
      parse_analysis_result
        ((labelFeatureId ++ v1) ++
          ('\n' :: ((labelConfidence ++ v2) ++ ('\n' :: (labelReason ++ v3))))) =
        (strip v1, strip v2, strip v3)) ∧
    (∀ s : List Char,
      (∀ l ∈ splitOnNL s, labelFeatureId.isPrefixOf (strip l) = false ∧
        labelConfidence.isPrefixOf (strip l) = false ∧
        labelReason.isPrefixOf (strip l) = false) →
      parse_analysis_result s = defaultTriple) ∧
    (∀ s : List Char,
      (∀ l ∈ splitOnNL s, labelFeatureId.isPrefixOf (strip l) = false) →
      (parse_analysis_result s).1 = "未确定".data) ∧
    (∀ s : List Char,
      (∀ l ∈ splitOnNL s, labelConfidence.isPrefixOf (strip l) = false) →
      (parse_analysis_result s).2.1 = "未知".data) ∧
    (∀ s : List Char,
      (∀ l ∈ splitOnNL s, labelReason.isPrefixOf (strip l) = false) →
      (parse_analysis_result s).2.2 = []) := by
  refine ⟨parse_wellformed, ?_, ?_, ?_, ?_⟩
  · intro s h
    unfold parse_analysis_result
    split_ifs
    · exact foldl_parseStep_skip _ _ h
    · rfl
  · intro s h
    unfold parse_analysis_result
    split_ifs
    · exact foldl_parseStep_fst _ _ h
    · rfl
  · intro s h
    unfold parse_analysis_result
    split_ifs
    · exact foldl_parseStep_snd _ _ h
    · rfl
  · intro s h
    unfold parse_analysis_result
    split_ifs
    · exact foldl_parseStep_thd _ _ h
    · rfl

/-- Claim C6 witness: the well-formed case at the concrete response
`"特性ID: F-1\n相关度: 高\n理由: ok"`, and the default case at the
concrete unstructured input `"hello\nworld"`. -/
theorem claim_c6_witness :
    parse_analysis_result
      ((labelFeatureId ++ (' ' :: "F-1".data)) ++
        ('\n' :: ((labelConfidence ++ (' ' :: "高".data)) ++
          ('\n' :: (labelReason ++ (' ' :: "ok".data)))))) =
      (strip (' ' :: "F-1".data), strip (' ' :: "高".data), strip (' ' :: "ok".data)) ∧
    parse_analysis_result "hello\nworld".data = defaultTriple :=
  ⟨claim_c6.1 (' ' :: "F-1".data) (' ' :: "高".data) (' ' :: "ok".data)
      (by decide) (by decide) (by decide) (by decide) (by decide) (by decide),
    claim_c6.2.1 "hello\nworld".data (by decide)⟩

/-- Claim C10: `parse_analysis_result` returns the full defaults on every
input containing no newline character — even on the single correctly
labeled line `"特性ID: F-1"`; field recognition only happens when the
input contains at least one newline. -/
theorem claim_c10 :
    (∀ s : List Char, '\n' ∉ s → parse_analysis_result s = defaultTriple) ∧
    parse_analysis_result "特性ID: F-1".data = defaultTriple := by
  have hmain : ∀ s : List Char, '\n' ∉ s → parse_analysis_result s = defaultTriple := by
    intro s h
    unfold parse_analysis_result
    rw [if_neg h]
  exact ⟨hmain, hmain _ (by decide)⟩

/-- Claim C10 witness: the single labeled line `"特性ID: F-1"` contains no
newline, and the theorem applied to it yields the defaults. -/
theorem claim_c10_witness :
    '\n' ∉ "特性ID: F-1".data ∧
    parse_analysis_result "特性ID: F-1".data = defaultTriple :=
  ⟨by decide, claim_c10.1 "特性ID: F-1".data (by decide)⟩

/-- Claim C4: for every store contents and query title, the feedback query
returns at most `max_feedback_examples = 5` entries; every returned entry
carries exactly its similarity to the query title and that similarity is at
least `similarity_threshold = 0.7`; the result is sorted by descending
similarity, and for each fixed similarity value the returned entries appear
in the same order as in the threshold-filtered store (`relevantList`, which
lists the store in insertion order) — i.e. ties are broken by original
insertion order (stable sort); and the result is empty when the store is
empty or no entry clears the threshold. -/
theorem claim_c4 (store : List FeedbackEntry) (title : List Char) :
    similarity_threshold = 7 / 10 ∧
    max_feedback_examples = 5 ∧
    (get_relevant_feedback store title).length ≤ max_feedback_examples ∧
    (∀ p ∈ get_relevant_feedback store title,
      p.1 ∈ store ∧ p.2 = _calculate_similarity title p.1.bug_title ∧
        similarity_threshold ≤ p.2) ∧
    (get_relevant_feedback store title).Pairwise (fun a b => b.2 ≤ a.2) ∧
    (∀ s : ℚ,
      ((get_relevant_feedback store title).filter fun q => decide (q.2 = s)).Sublist
        ((relevantList store title).filter fun q => decide (q.2 = s))) ∧
    (store = [] → get_relevant_feedback store title = []) ∧
    ((∀ e ∈ store, _calculate_similarity title e.bug_title < similarity_threshold) →
      get_relevant_feedback store title = []) := by
  have hget := get_relevant_feedback_eq store title
  refine ⟨rfl, rfl, ?_, ?_, ?_, ?_, ?_, ?_⟩
  · rw [hget]
    exact List.length_take_le _ _
  · intro p hp
    rw [hget] at hp
    have hp2 : p ∈ sortDescBySim (relevantList store title) :=
      (List.take_sublist _ _).subset hp
    have hp3 : p ∈ relevantList store title := mem_sortDesc.mp hp2
    unfold relevantList at hp3
    rcases List.mem_filter.mp hp3 with ⟨hmap, hpred⟩
    rcases List.mem_map.mp hmap with ⟨e, he, rfl⟩
    exact ⟨he, rfl, by simpa using hpred⟩
  · rw [hget]
    exact List.Pairwise.sublist (List.take_sublist _ _) (sorted_sortDesc _)
  · intro s
    rw [hget]
    have h1 := (List.take_sublist max_feedback_examples
      (sortDescBySim (relevantList store title))).filter fun q => decide (q.2 = s)
    rw [filter_sortDesc] at h1
    exact h1
  · intro h
    subst h
    rfl
  · intro h
    have hrel : relevantList store title = [] := by
      unfold relevantList
      rw [List.filter_eq_nil_iff]
      intro p hp
      rcases List.mem_map.mp hp with ⟨e, he, rfl⟩
      simp only [decide_eq_true_eq]
      exact not_le.mpr (h e he)
    rw [hget, hrel]
    rfl

/-- Claim C4 witness: querying the empty store returns the empty list. -/
theorem claim_c4_witness : get_relevant_feedback [] ['a'] = [] :=
  (claim_c4 [] ['a']).2.2.2.2.2.2.1 rfl

/-- Claim C7: appending an Open, Blocker-severity bug to a feature's
linked-bug list never increases the quality score: it strictly decreases
the score whenever the current score is positive, and holds it at 0 once
the score is clamped at 0. -/
theorem claim_c7 (bugs : List Bug) (b : Bug) (hs : b.status = some "Open")
    (hv : b.severity = some "Blocker") :
    quality_score (bugs ++ [b]) ≤ quality_score bugs ∧
    (0 < quality_score bugs → quality_score (bugs ++ [b]) < quality_score bugs) ∧
    (quality_score bugs = 0 → quality_score (bugs ++ [b]) = 0) := by
  have hD0 : 0 ≤ deductionSum bugs := deductionSum_nonneg bugs
  have hb100 : 100 - deductionSum bugs ≤ 100 := by linarith
  have hdap : deductionSum (bugs ++ [b]) = deductionSum bugs + 10 := by
    rw [deductionSum_append, openDeduction_blocker b hs hv]
  have hrr2_0 : 0 ≤ resolution_rate (bugs ++ [b]) := resolution_rate_nonneg _
  have hrr12 : resolution_rate (bugs ++ [b]) ≤ resolution_rate bugs :=
    resolution_rate_append_le bugs b hs
  have hscore : ∀ bs : List Bug, quality_score bs =
      max 0 (min 100 (if resolution_rate bs < 80
        then (100 - deductionSum bs) * (1 / 2 + resolution_rate bs / 160)
        else 100 - deductionSum bs)) := by
    intro bs
    simp only [quality_score, _calculate_quality_score]
    rw [foldl_sub_deduction]
  rw [hscore (bugs ++ [b]), hscore bugs, hdap]
  have hbase : (100 : ℚ) - (deductionSum bugs + 10) = (100 - deductionSum bugs) - 10 := by
    ring
  rw [hbase]
  have hfacts := score_inner_facts hb100 hrr2_0 hrr12
  exact clamp_compare hfacts.2.2 hfacts.1 hfacts.2.1

/-- Claim C7 witness: appending a single Open Blocker bug to the empty list
does not increase the quality score. -/
theorem claim_c7_witness :
    quality_score ([] ++ [⟨some "Open", some "Blocker", none, none, none⟩]) ≤
      quality_score [] :=
  (claim_c7 [] ⟨some "Open", some "Blocker", none, none, none⟩ rfl rfl).1

end Jirabug
